import Mathlib

/-!
Shallow embedding of the chess rules engine (src/src/domain: types.ts, piece.ts,
move.ts, board.ts, rules/pieceRules.ts, rules/gameRules.ts, gameState.ts).

Modelling conventions:
  * JS `number` coordinates are modelled as `Int`; the one place where `NaN`
    is observable (`PositionUtils.fromAlgebraic`, whose second character goes
    through `parseInt`) models a possibly-NaN number as `Option Int`
    (`none` = NaN), wrapped in the `RawPos` record used for en-passant targets.
  * Throwing JS code is modelled with `Except String`.
  * The JS `Map<string, Piece>` keyed by the string `"file,rank"` is modelled
    as an association list keyed by the (injective) pair itself, with JS `Map`
    insertion-order semantics: `set` replaces in place, otherwise appends;
    `delete` removes; `values()` is the stored order.
-/

namespace Chess

/-- types.ts: `Color`. -/
inductive Color where
  | white
  | black
deriving DecidableEq, Repr

/-- types.ts: `PieceType`. -/
inductive PieceType where
  | pawn
  | knight
  | bishop
  | rook
  | queen
  | king
deriving DecidableEq, Repr

/-- types.ts: `GameResult`. -/
inductive GameResult where
  | whiteWin
  | blackWin
  | draw
  | inProgress
deriving DecidableEq, Repr

/-- types.ts: `GameEndReason`. -/
inductive GameEndReason where
  | checkmate
  | stalemate
  | resignation
  | drawAgreement
  | insufficientMaterial
  | threefoldRepetition
  | fiftyMoveRule
  | timeout
deriving DecidableEq, Repr

/-- types.ts: `SpecialMoveType`. -/
inductive SpecialMoveType where
  | none
  | enPassant
  | castleKingside
  | castleQueenside
  | pawnPromotion
deriving DecidableEq, Repr

/-- types.ts: `Position` — a (file, rank) pair of JS numbers, modelled as `Int`. -/
structure Pos where
  file : Int
  rank : Int
deriving DecidableEq, Repr

/-- A position as produced by `PositionUtils.fromAlgebraic`: its rank comes out
of `parseInt` and can be NaN (`none`). Only the en-passant target ever holds
such a value. -/
structure RawPos where
  file : Int
  rank : Option Int
deriving DecidableEq, Repr

/-- Embed an ordinary (finite) position into `RawPos`. -/
def Pos.toRaw (p : Pos) : RawPos := ⟨p.file, some p.rank⟩

namespace ColorUtils

/-- types.ts: `ColorUtils.opposite`. -/
def opposite (c : Color) : Color :=
  match c with
  | .white => .black
  | .black => .white

end ColorUtils

/-- The pawn's forward direction: `+1` rank for White, `-1` for Black (the
`direction` local computed at each use site in the source). -/
def pawnDirection (c : Color) : Int :=
  if c == Color.white then 1 else -1

/-- JS `parseInt(c, 10)` for a single character: a decimal digit parses to its
value, anything else is NaN (`none`). -/
def parseIntChar (c : Char) : Option Int :=
  if c.isDigit then some ((c.toNat : Int) - 48) else none

/-- JS `parseInt(s, 10)` for a whole string: skip leading whitespace, optional
sign, then the longest leading run of decimal digits; NaN (`none`) if that run
is empty. -/
def jsParseInt (s : String) : Option Int :=
  let cs := s.toList.dropWhile (fun c => c.isWhitespace)
  let signAndRest : Int × List Char :=
    match cs with
    | '-' :: rest => (-1, rest)
    | '+' :: rest => (1, rest)
    | rest => (1, rest)
  let digits := signAndRest.2.takeWhile (fun c => c.isDigit)
  if digits.isEmpty then none
  else some (signAndRest.1 * (digits.foldl (fun acc c => acc * 10 + ((c.toNat : Int) - 48)) 0))

/-- Leading- and trailing-whitespace trim on character lists (JS
`String.prototype.trim`). -/
def trimChars (cs : List Char) : List Char :=
  ((cs.dropWhile Char.isWhitespace).reverse.dropWhile Char.isWhitespace).reverse

/-- Whitespace-run tokenizer (JS `split(/\s+/)` on a trimmed string), with an
accumulator for the token being read. -/
def wsTokensAux : List Char → List Char → List (List Char)
  | [], acc => if acc.isEmpty then [] else [acc.reverse]
  | c :: rest, acc =>
    if c.isWhitespace then
      if acc.isEmpty then wsTokensAux rest [] else acc.reverse :: wsTokensAux rest []
    else
      wsTokensAux rest (c :: acc)

/-- JS `String.prototype.split('/')` — keeps empty pieces. -/
def splitSlashAux : List Char → List Char → List (List Char)
  | [], acc => [acc.reverse]
  | c :: rest, acc =>
    if c == '/' then acc.reverse :: splitSlashAux rest [] else splitSlashAux rest (c :: acc)

namespace PositionUtils

/-- types.ts: `PositionUtils.toAlgebraic` (for finite positions). -/
def toAlgebraic (pos : Pos) : String :=
  String.mk [Char.ofNat (97 + pos.file.toNat)] ++ toString (pos.rank + 1)

/-- types.ts: `PositionUtils.fromAlgebraic`. The length check, then
`charCodeAt(0) - 'a'` for the file and `parseInt(s[1], 10) - 1` for the rank;
the range check uses JS comparisons, under which NaN is neither `< 0` nor
`> 7`, so a NaN rank slips through. -/
def fromAlgebraic (s : String) : Except String RawPos :=
  match s.toList with
  | [c0, c1] =>
      let file : Int := (c0.toNat : Int) - 97
      let rank : Option Int := (parseIntChar c1).map (fun v => v - 1)
      let rankLt0 : Bool := match rank with | some v => v < 0 | none => false
      let rankGt7 : Bool := match rank with | some v => v > 7 | none => false
      if file < 0 || file > 7 || rankLt0 || rankGt7 then
        .error "Invalid algebraic notation"
      else
        .ok ⟨file, rank⟩
  | _ => .error "Invalid algebraic notation"

/-- types.ts: `PositionUtils.isValid`. -/
def isValid (pos : Pos) : Bool :=
  pos.file ≥ 0 && pos.file ≤ 7 && pos.rank ≥ 0 && pos.rank ≤ 7

/-- types.ts: `PositionUtils.equals`. -/
def equals (a b : Pos) : Bool :=
  a.file == b.file && a.rank == b.rank

end PositionUtils

/-- piece.ts: `Piece` — type, color, position, `hasMoved`. -/
structure Piece where
  type : PieceType
  color : Color
  pos : Pos
  hasMoved : Bool := false
deriving DecidableEq, Repr

namespace Piece

/-- piece.ts: `Piece.moveTo` — new piece at the new position, `hasMoved = true`. -/
def moveTo (p : Piece) (newPosition : Pos) : Piece :=
  ⟨p.type, p.color, newPosition, true⟩

/-- piece.ts: `Piece.clone`. -/
def clone (p : Piece) : Piece :=
  ⟨p.type, p.color, ⟨p.pos.file, p.pos.rank⟩, p.hasMoved⟩

/-- piece.ts: `Piece.promote` — throws unless the piece is a pawn and the new
type is neither pawn nor king. -/
def promote (p : Piece) (newType : PieceType) : Except String Piece :=
  if p.type ≠ PieceType.pawn then
    .error "Only pawns can be promoted"
  else if newType = PieceType.pawn ∨ newType = PieceType.king then
    .error "Cannot promote to pawn or king"
  else
    .ok ⟨newType, p.color, p.pos, true⟩

end Piece

/-- move.ts: `Move`. -/
structure Move where
  fromSq : Pos
  toSq : Pos
  piece : Piece
  capturedPiece : Option Piece := Option.none
  specialMove : SpecialMoveType := SpecialMoveType.none
  promotionType : Option PieceType := Option.none
deriving DecidableEq, Repr

namespace Move

/-- move.ts: `Move.isCastling`. -/
def isCastling (m : Move) : Bool :=
  m.specialMove == SpecialMoveType.castleKingside ||
  m.specialMove == SpecialMoveType.castleQueenside

/-- move.ts: `Move.isEnPassant`. -/
def isEnPassant (m : Move) : Bool :=
  m.specialMove == SpecialMoveType.enPassant

/-- move.ts: `Move.isPromotion`. -/
def isPromotion (m : Move) : Bool :=
  m.specialMove == SpecialMoveType.pawnPromotion

end Move

/-- board.ts: `Board` — the JS `Map<string, Piece>` keyed by `"file,rank"`,
modelled as an insertion-ordered association list keyed by the position pair
(the string key is injective on integer pairs). -/
structure Board where
  entries : List (Pos × Piece)
deriving DecidableEq, Repr

namespace Board

/-- board.ts: `Board.getPiece`. -/
def getPiece (b : Board) (pos : Pos) : Option Piece :=
  (b.entries.find? (fun e => e.1 == pos)).map (fun e => e.2)

/-- board.ts: `Board.setPiece` — JS `Map.set`: replace in place when the key is
present, otherwise append. -/
def setPiece (b : Board) (piece : Piece) : Board :=
  if b.entries.any (fun e => e.1 == piece.pos) then
    ⟨b.entries.map (fun e => if e.1 == piece.pos then (piece.pos, piece) else e)⟩
  else
    ⟨b.entries ++ [(piece.pos, piece)]⟩

/-- board.ts: `Board.removePiece` — JS `Map.delete`. -/
def removePiece (b : Board) (pos : Pos) : Board :=
  ⟨b.entries.filter (fun e => !(e.1 == pos))⟩

/-- board.ts: `Board` constructor from an optional piece list: `setPiece` each
in order, starting from the empty map. -/
def ofPieces (pieces : List Piece) : Board :=
  pieces.foldl setPiece ⟨[]⟩

/-- board.ts: `Board.movePiece` — throws when the source square is empty. -/
def movePiece (b : Board) (fromPos toPos : Pos) : Except String Board :=
  match b.getPiece fromPos with
  | Option.none => .error ("No piece at position " ++ PositionUtils.toAlgebraic fromPos)
  | some piece => .ok ((b.removePiece fromPos).setPiece (piece.moveTo toPos))

/-- board.ts: `Board.getAllPieces` — `Map.values()` in insertion order. -/
def getAllPieces (b : Board) : List Piece :=
  b.entries.map (fun e => e.2)

/-- board.ts: `Board.getPiecesByColor`. -/
def getPiecesByColor (b : Board) (color : Color) : List Piece :=
  b.getAllPieces.filter (fun p => p.color == color)

/-- board.ts: `Board.getKing`. -/
def getKing (b : Board) (color : Color) : Option Piece :=
  b.getAllPieces.find? (fun p => p.type == PieceType.king && p.color == color)

/-- board.ts: `Board.isEmpty`. -/
def isEmpty (b : Board) (pos : Pos) : Bool :=
  b.getPiece pos == Option.none

/-- board.ts: `Board.isOpponentPiece`. -/
def isOpponentPiece (b : Board) (pos : Pos) (color : Color) : Bool :=
  match b.getPiece pos with
  | Option.none => false
  | some piece => piece.color != color

/-- board.ts: `Board.clone` — rebuild from cloned pieces. -/
def clone (b : Board) : Board :=
  ofPieces (b.getAllPieces.map Piece.clone)

end Board

/-!  rules/pieceRules.ts: per-piece-type pseudo-legal move generation.  -/

namespace PieceRules

/-- rules/pieceRules.ts: `PawnRules.getPossibleMoves`. -/
def pawnMoves (piece : Piece) (board : Board) : List Pos :=
  let direction : Int := pawnDirection piece.color
  let startRank : Int := if piece.color == Color.white then 1 else 6
  let file := piece.pos.file
  let rank := piece.pos.rank
  let oneForward : Pos := ⟨file, rank + direction⟩
  let forwardMoves :=
    if PositionUtils.isValid oneForward && board.isEmpty oneForward then
      let twoForward : Pos := ⟨file, rank + 2 * direction⟩
      if rank == startRank && board.isEmpty twoForward then
        [oneForward, twoForward]
      else
        [oneForward]
    else
      []
  let captureMoves :=
    [file - 1, file + 1].filterMap (fun captureFile =>
      let capturePos : Pos := ⟨captureFile, rank + direction⟩
      if PositionUtils.isValid capturePos && board.isOpponentPiece capturePos piece.color then
        some capturePos
      else
        Option.none)
  forwardMoves ++ captureMoves

/-- rules/pieceRules.ts: `KnightRules.getPossibleMoves` — 8 fixed offsets,
in-bounds and not own piece. -/
def knightMoves (piece : Piece) (board : Board) : List Pos :=
  let file := piece.pos.file
  let rank := piece.pos.rank
  let candidates : List Pos :=
    [⟨file + 2, rank + 1⟩, ⟨file + 2, rank - 1⟩,
     ⟨file - 2, rank + 1⟩, ⟨file - 2, rank - 1⟩,
     ⟨file + 1, rank + 2⟩, ⟨file + 1, rank - 2⟩,
     ⟨file - 1, rank + 2⟩, ⟨file - 1, rank - 2⟩]
  candidates.filter (fun mv =>
    PositionUtils.isValid mv &&
      (match board.getPiece mv with
       | Option.none => true
       | some target => target.color != piece.color))

/-- One ray of the sliding-piece while loop: walk from the given square in
direction (df, dr) while on the board, stopping at the first occupied square
(included when it holds an opponent piece). The loop body runs at most 8 times
for any start square — each step moves the file or the rank monotonically by 1
and the in-range test bounds it to [0, 7] — so fuel 8 reproduces it exactly. -/
def rayWalk (board : Board) (color : Color) (df dr : Int) :
    Int → Int → Nat → List Pos
  | _, _, 0 => []
  | f, r, fuel + 1 =>
    if f ≥ 0 && f ≤ 7 && r ≥ 0 && r ≤ 7 then
      match board.getPiece ⟨f, r⟩ with
      | Option.none => ⟨f, r⟩ :: rayWalk board color df dr (f + df) (r + dr) fuel
      | some target => if target.color != color then [⟨f, r⟩] else []
    else
      []

/-- rules/pieceRules.ts: `BishopRules.getDiagonalMoves` — 4 diagonal rays in
source order. -/
def diagonalMoves (piece : Piece) (board : Board) : List Pos :=
  ([(1, 1), (1, -1), (-1, 1), (-1, -1)] : List (Int × Int)).flatMap (fun dir =>
    rayWalk board piece.color dir.1 dir.2 (piece.pos.file + dir.1) (piece.pos.rank + dir.2) 8)

/-- rules/pieceRules.ts: `RookRules.getStraightMoves` — 4 orthogonal rays in
source order. -/
def straightMoves (piece : Piece) (board : Board) : List Pos :=
  ([(1, 0), (-1, 0), (0, 1), (0, -1)] : List (Int × Int)).flatMap (fun dir =>
    rayWalk board piece.color dir.1 dir.2 (piece.pos.file + dir.1) (piece.pos.rank + dir.2) 8)

/-- rules/pieceRules.ts: `QueenRules.getPossibleMoves` — straight then diagonal. -/
def queenMoves (piece : Piece) (board : Board) : List Pos :=
  straightMoves piece board ++ diagonalMoves piece board

/-- rules/pieceRules.ts: `KingRules.getPossibleMoves` — 8 adjacent squares,
in-bounds and not own piece. -/
def kingMoves (piece : Piece) (board : Board) : List Pos :=
  let file := piece.pos.file
  let rank := piece.pos.rank
  let candidates : List Pos :=
    [⟨file + 1, rank⟩, ⟨file - 1, rank⟩,
     ⟨file, rank + 1⟩, ⟨file, rank - 1⟩,
     ⟨file + 1, rank + 1⟩, ⟨file + 1, rank - 1⟩,
     ⟨file - 1, rank + 1⟩, ⟨file - 1, rank - 1⟩]
  candidates.filter (fun mv =>
    PositionUtils.isValid mv &&
      (match board.getPiece mv with
       | Option.none => true
       | some target => target.color != piece.color))

/-- rules/pieceRules.ts: `PieceRulesFactory.getPossibleMoves` — dispatch on the
piece type. -/
def getPossibleMoves (piece : Piece) (board : Board) : List Pos :=
  match piece.type with
  | .pawn => pawnMoves piece board
  | .knight => knightMoves piece board
  | .bishop => diagonalMoves piece board
  | .rook => straightMoves piece board
  | .queen => queenMoves piece board
  | .king => kingMoves piece board

end PieceRules

/-!  rules/gameRules.ts: the `GameRules` engine.  -/

namespace GameRules

/-- rules/gameRules.ts: `GameRules.isSquareAttacked` — some opponent piece's
pseudo-legal move set contains the square. -/
def isSquareAttacked (board : Board) (position : Pos) (defenderColor : Color) : Bool :=
  (board.getPiecesByColor (ColorUtils.opposite defenderColor)).any (fun attacker =>
    (PieceRules.getPossibleMoves attacker board).any (fun mv =>
      PositionUtils.equals mv position))

/-- rules/gameRules.ts: `GameRules.isInCheck` — no king means not in check. -/
def isInCheck (board : Board) (color : Color) : Bool :=
  match board.getKing color with
  | Option.none => false
  | some king => isSquareAttacked board king.pos color

/-- rules/gameRules.ts: private `GameRules.applyMove` — the simplified board
application used only for legality testing. -/
def applyMoveBoard (board : Board) (move : Move) : Board :=
  let b1 := board.removePiece move.fromSq
  let b2 :=
    match move.capturedPiece with
    | Option.none => b1
    | some captured => b1.removePiece captured.pos
  b2.setPiece (move.piece.moveTo move.toSq)

/-- rules/gameRules.ts: `GameRules.isMoveLegal` — simulate on a clone and test
that the mover's own king is not in check. -/
def isMoveLegal (move : Move) (board : Board) : Bool :=
  let testBoard := applyMoveBoard board.clone move
  !(isInCheck testBoard move.piece.color)

/-- rules/gameRules.ts getCastlingMoves: the kingside block — rook at file 7,
files 5 and 6 empty, files 4, 5, 6 unattacked (all hard-coded, not relative to
the king's actual file). -/
def castlingKingsideList (king : Piece) (board : Board) : List Move :=
  let rank := king.pos.rank
  match board.getPiece ⟨7, rank⟩ with
  | some kingsideRook =>
    if kingsideRook.type == PieceType.rook &&
        !kingsideRook.hasMoved &&
        board.isEmpty ⟨5, rank⟩ &&
        board.isEmpty ⟨6, rank⟩ &&
        !(isSquareAttacked board ⟨4, rank⟩ king.color) &&
        !(isSquareAttacked board ⟨5, rank⟩ king.color) &&
        !(isSquareAttacked board ⟨6, rank⟩ king.color) then
      [Move.mk king.pos ⟨6, rank⟩ king Option.none SpecialMoveType.castleKingside Option.none]
    else
      []
  | Option.none => []

/-- rules/gameRules.ts getCastlingMoves: the queenside block — rook at file 0,
files 1, 2, 3 empty, files 4, 3, 2 unattacked (hard-coded). -/
def castlingQueensideList (king : Piece) (board : Board) : List Move :=
  let rank := king.pos.rank
  match board.getPiece ⟨0, rank⟩ with
  | some queensideRook =>
    if queensideRook.type == PieceType.rook &&
        !queensideRook.hasMoved &&
        board.isEmpty ⟨1, rank⟩ &&
        board.isEmpty ⟨2, rank⟩ &&
        board.isEmpty ⟨3, rank⟩ &&
        !(isSquareAttacked board ⟨4, rank⟩ king.color) &&
        !(isSquareAttacked board ⟨3, rank⟩ king.color) &&
        !(isSquareAttacked board ⟨2, rank⟩ king.color) then
      [Move.mk king.pos ⟨2, rank⟩ king Option.none SpecialMoveType.castleQueenside Option.none]
    else
      []
  | Option.none => []

/-- rules/gameRules.ts: `GameRules.getCastlingMoves` — nothing for a non-king
or moved king, otherwise the kingside moves followed by the queenside ones. -/
def getCastlingMoves (king : Piece) (board : Board) : List Move :=
  if king.type != PieceType.king || king.hasMoved then
    []
  else
    castlingKingsideList king board ++ castlingQueensideList king board

/-- rules/gameRules.ts getEnPassantMove: one iteration of the loop over the
two capture files — match the supplied target, look one rank behind the target
(the pawn's own rank) for a piece of Pawn type (its color is never checked),
and validate via `isMoveLegal`. -/
def epTryFile (pawn : Piece) (board : Board) (enPassantTarget : RawPos)
    (targetRank : Int) (captureFile : Int) : Option Move :=
  if captureFile == enPassantTarget.file &&
      pawn.pos.rank + pawnDirection pawn.color == targetRank then
    let capturedPawnPos : Pos := ⟨enPassantTarget.file, pawn.pos.rank⟩
    match board.getPiece capturedPawnPos with
    | some capturedPawn =>
      if capturedPawn.type == PieceType.pawn then
        let move := Move.mk pawn.pos ⟨enPassantTarget.file, targetRank⟩ pawn
          (some capturedPawn) SpecialMoveType.enPassant Option.none
        if isMoveLegal move board then some move else Option.none
      else
        Option.none
    | Option.none => Option.none
  else
    Option.none

/-- rules/gameRules.ts: `GameRules.getEnPassantMove`. The en-passant target is
a `RawPos` (its rank may be NaN when it came from a malformed FEN field); the
JS `===` comparisons against NaN are false, so a NaN rank never matches. -/
def getEnPassantMove (pawn : Piece) (board : Board) (enPassantTarget : RawPos) : Option Move :=
  if pawn.type != PieceType.pawn then
    Option.none
  else
    match enPassantTarget.rank with
    | Option.none => Option.none
    | some targetRank =>
      match epTryFile pawn board enPassantTarget targetRank (pawn.pos.file - 1) with
      | some m => some m
      | Option.none => epTryFile pawn board enPassantTarget targetRank (pawn.pos.file + 1)

/-- rules/gameRules.ts getLegalMoves: the basic loop — wrap each pseudo-legal
destination as a Move (special tag None) and keep the ones passing
`isMoveLegal`. -/
def basicLegalMoves (piece : Piece) (board : Board) : List Move :=
  (PieceRules.getPossibleMoves piece board).filterMap (fun targetPos =>
    let move := Move.mk piece.pos targetPos piece (board.getPiece targetPos)
      SpecialMoveType.none Option.none
    if isMoveLegal move board then some move else Option.none)

/-- rules/gameRules.ts: `GameRules.getLegalMoves` — the basic moves, plus
castling moves for a king (NOT re-checked by `isMoveLegal`) and the en-passant
move for a pawn when a target is supplied. -/
def getLegalMoves (piece : Piece) (board : Board) (enPassantTarget : Option RawPos) : List Move :=
  let withCastling :=
    if piece.type == PieceType.king then
      basicLegalMoves piece board ++ getCastlingMoves piece board
    else
      basicLegalMoves piece board
  match enPassantTarget with
  | some target =>
    if piece.type == PieceType.pawn then
      match getEnPassantMove piece board target with
      | some enPassantMove => withCastling ++ [enPassantMove]
      | Option.none => withCastling
    else
      withCastling
  | Option.none => withCastling

/-- rules/gameRules.ts: `GameRules.getAllLegalMoves` — union over the color's
pieces in board storage order. -/
def getAllLegalMoves (board : Board) (color : Color) (enPassantTarget : Option RawPos) : List Move :=
  (board.getPiecesByColor color).flatMap (fun piece =>
    getLegalMoves piece board enPassantTarget)

/-- rules/gameRules.ts: `GameRules.isCheckmate`. -/
def isCheckmate (board : Board) (color : Color) (enPassantTarget : Option RawPos) : Bool :=
  isInCheck board color && (getAllLegalMoves board color enPassantTarget).isEmpty

/-- rules/gameRules.ts: `GameRules.isStalemate`. -/
def isStalemate (board : Board) (color : Color) (enPassantTarget : Option RawPos) : Bool :=
  !(isInCheck board color) && (getAllLegalMoves board color enPassantTarget).isEmpty

/-- rules/gameRules.ts: `GameRules.hasInsufficientMaterial` — counts pieces
only; it never verifies that kings are present. JS `%` is truncated remainder,
modelled by `Int.tmod`. -/
def hasInsufficientMaterial (board : Board) : Bool :=
  let pieces := board.getAllPieces
  if pieces.length == 2 then
    true
  else if pieces.length == 3 then
    match pieces.filter (fun p => p.type != PieceType.king) with
    | [piece] => piece.type == PieceType.bishop || piece.type == PieceType.knight
    | _ => false
  else if pieces.length == 4 then
    match pieces.filter (fun p => p.type == PieceType.bishop) with
    | [b1, b2] =>
      Int.tmod (b1.pos.file + b1.pos.rank) 2 == Int.tmod (b2.pos.file + b2.pos.rank) 2
    | _ => false
  else
    false

end GameRules

/-!  board.ts: `Board.fromFEN` (position part plus castling-rights string).  -/

namespace Board

/-- One piece letter of a FEN rank: uppercase is White; unknown letters throw. -/
def pieceTypeOfChar (c : Char) : Except String PieceType :=
  match c.toUpper with
  | 'K' => .ok PieceType.king
  | 'Q' => .ok PieceType.queen
  | 'R' => .ok PieceType.rook
  | 'B' => .ok PieceType.bishop
  | 'N' => .ok PieceType.knight
  | 'P' => .ok PieceType.pawn
  | _ => .error "Invalid FEN: unknown piece"

/-- board.ts fromFEN: the `hasMoved` heuristic — defaults to true; kings and
rooks on their castling start squares are unmoved when the corresponding right
is granted; pawns on their home rank are unmoved. -/
def fenHasMoved (pieceType : PieceType) (color : Color) (file rank : Int)
    (cwk cwq cbk cbq : Bool) : Bool :=
  match pieceType with
  | .king =>
    if color == Color.white && file == 4 && rank == 0 then !(cwk || cwq)
    else if color == Color.black && file == 4 && rank == 7 then !(cbk || cbq)
    else true
  | .rook =>
    if color == Color.white && rank == 0 then
      if file == 7 then !cwk else if file == 0 then !cwq else true
    else if color == Color.black && rank == 7 then
      if file == 7 then !cbk else if file == 0 then !cbq else true
    else true
  | .pawn =>
    if (color == Color.white && rank == 1) || (color == Color.black && rank == 6) then false
    else true
  | _ => true

/-- board.ts fromFEN: the inner character loop over one rank's row string,
threading the current file and accumulating pieces. -/
def parseFenRow (rank : Int) (cwk cwq cbk cbq : Bool) :
    List Char → Int → List Piece → Except String (Int × List Piece)
  | [], file, acc => .ok (file, acc)
  | c :: rest, file, acc =>
    if '1' ≤ c ∧ c ≤ '8' then
      parseFenRow rank cwk cwq cbk cbq rest (file + ((c.toNat : Int) - 48)) acc
    else
      match pieceTypeOfChar c with
      | .error e => .error e
      | .ok pieceType =>
        let color := if c.toUpper == c then Color.white else Color.black
        let hasMoved := fenHasMoved pieceType color file rank cwk cwq cbk cbq
        parseFenRow rank cwk cwq cbk cbq rest (file + 1)
          (acc ++ [Piece.mk pieceType color ⟨file, rank⟩ hasMoved])

/-- board.ts fromFEN: the outer loop, rank 7 down to 0, row `rows[7 - rank]`;
a rank whose squares do not sum to 8 throws. -/
def parseFenRows (cwk cwq cbk cbq : Bool) :
    List String → Int → List Piece → Except String (List Piece)
  | [], _, acc => .ok acc
  | row :: rest, rank, acc =>
    match parseFenRow rank cwk cwq cbk cbq row.toList 0 [] with
    | .error e => .error e
    | .ok (file, pieces) =>
      if file ≠ 8 then
        .error "Invalid FEN: rank has wrong number of squares"
      else
        parseFenRows cwk cwq cbk cbq rest (rank - 1) (acc ++ pieces)

/-- board.ts: `Board.fromFEN` — position part plus a castling-rights string
(defaulting to "-" at the call site in gameState.ts). -/
def fromFEN (fen : String) (castlingRights : String) : Except String Board :=
  let rows := (splitSlashAux fen.toList []).map String.mk
  if rows.length ≠ 8 then
    .error "Invalid FEN: must have 8 ranks"
  else
    let cwk := castlingRights.toList.any (fun c => c == 'K')
    let cwq := castlingRights.toList.any (fun c => c == 'Q')
    let cbk := castlingRights.toList.any (fun c => c == 'k')
    let cbq := castlingRights.toList.any (fun c => c == 'q')
    match parseFenRows cwk cwq cbk cbq rows 7 [] with
    | .error e => .error e
    | .ok pieces => .ok (ofPieces pieces)

end Board

/-!  gameState.ts: `GameState` and its move-application state machine.  -/

/-- gameState.ts: `GameState` — immutable game state record. The en-passant
target is a `RawPos` because `fromFEN` can store a NaN-ranked target. -/
structure GameState where
  board : Board
  currentTurn : Color
  moveHistory : List Move := []
  enPassantTarget : Option RawPos := Option.none
  halfMoveClock : Int := 0
  fullMoveNumber : Int := 1
  result : GameResult := GameResult.inProgress
  endReason : Option GameEndReason := Option.none
deriving DecidableEq, Repr

/-- move.ts: `MoveResult` — the discriminated result of `makeMove`. -/
structure MoveResult where
  success : Bool
  move : Option Move := Option.none
  newState : Option GameState := Option.none
  error : Option String := Option.none
  isCheck : Option Bool := Option.none
  isCheckmate : Option Bool := Option.none
  isStalemate : Option Bool := Option.none
deriving DecidableEq, Repr

namespace GameState

/-- gameState.ts: `GameState.createCustom`. -/
def createCustom (board : Board) (currentTurn : Color) : GameState :=
  { board := board, currentTurn := currentTurn }

/-- gameState.ts: `GameState.getLegalMovesForPiece` — empty unless the piece's
color is the current turn. -/
def getLegalMovesForPiece (s : GameState) (piece : Piece) : List Move :=
  if piece.color != s.currentTurn then
    []
  else
    GameRules.getLegalMoves piece s.board s.enPassantTarget

/-- gameState.ts: `GameState.getLegalMoves`. -/
def getLegalMoves (s : GameState) : List Move :=
  GameRules.getAllLegalMoves s.board s.currentTurn s.enPassantTarget

/-- gameState.ts: private `GameState.applyCastling` — move the king, then
relocate the corner rook to file 5 (kingside) or file 3 (queenside). -/
def applyCastling (board : Board) (move : Move) : Board :=
  let rank := move.fromSq.rank
  let b1 := (board.removePiece move.fromSq).setPiece (move.piece.moveTo move.toSq)
  if move.specialMove == SpecialMoveType.castleKingside then
    match b1.getPiece ⟨7, rank⟩ with
    | some rook => (b1.removePiece ⟨7, rank⟩).setPiece (rook.moveTo ⟨5, rank⟩)
    | Option.none => b1
  else if move.specialMove == SpecialMoveType.castleQueenside then
    match b1.getPiece ⟨0, rank⟩ with
    | some rook => (b1.removePiece ⟨0, rank⟩).setPiece (rook.moveTo ⟨3, rank⟩)
    | Option.none => b1
  else
    b1

/-- gameState.ts: private `GameState.applyEnPassant` — the captured pawn is
removed at its own square, not the destination. -/
def applyEnPassant (board : Board) (move : Move) : Board :=
  let b1 := (board.removePiece move.fromSq).setPiece (move.piece.moveTo move.toSq)
  match move.capturedPiece with
  | some captured => b1.removePiece captured.pos
  | Option.none => b1

/-- gameState.ts: private `GameState.applyPromotion` — calls `Piece.promote`,
which throws for promotion to pawn or king; with no promotion type the pawn is
removed and nothing is placed. -/
def applyPromotion (board : Board) (move : Move) : Except String Board :=
  let b1 := board.removePiece move.fromSq
  let b2 :=
    match move.capturedPiece with
    | some captured => b1.removePiece captured.pos
    | Option.none => b1
  match move.promotionType with
  | some newType =>
    match move.piece.promote newType with
    | .error e => .error e
    | .ok promoted => .ok (b2.setPiece (promoted.moveTo move.toSq))
  | Option.none => .ok b2

/-- gameState.ts: private `GameState.checkGameEnd` — checkmate, stalemate,
insufficient material, then the fifty-move rule, first match wins. -/
def checkGameEnd (board : Board) (currentTurn : Color) (enPassantTarget : Option RawPos)
    (halfMoveClock : Int) (_moveHistory : List Move) :
    GameResult × Option GameEndReason :=
  if GameRules.isCheckmate board currentTurn enPassantTarget then
    (if currentTurn == Color.white then GameResult.blackWin else GameResult.whiteWin,
     some GameEndReason.checkmate)
  else if GameRules.isStalemate board currentTurn enPassantTarget then
    (GameResult.draw, some GameEndReason.stalemate)
  else if GameRules.hasInsufficientMaterial board then
    (GameResult.draw, some GameEndReason.insufficientMaterial)
  else if halfMoveClock ≥ 100 then
    (GameResult.draw, some GameEndReason.fiftyMoveRule)
  else
    (GameResult.inProgress, Option.none)

/-- gameState.ts applyMove: the board-mutation step on the cloned board —
castling, en passant, promotion (the only branch that can throw), or the
normal remove/remove-captured/place sequence. -/
def applyMoveBoard (s : GameState) (move : Move) : Except String Board :=
  let cloned := s.board.clone
  if move.isCastling then
    .ok (applyCastling cloned move)
  else if move.isEnPassant then
    .ok (applyEnPassant cloned move)
  else if move.isPromotion then
    applyPromotion cloned move
  else
    let b1 := cloned.removePiece move.fromSq
    let b2 :=
      match move.capturedPiece with
      | some captured => b1.removePiece captured.pos
      | Option.none => b1
    .ok (b2.setPiece (move.piece.moveTo move.toSq))

/-- gameState.ts: private `GameState.applyMove` — clone the board, mutate per
move semantics, recompute bookkeeping and end conditions. Only the promotion
branch can throw. -/
def applyMove (s : GameState) (move : Move) : Except String GameState :=
  match applyMoveBoard s move with
  | .error e => .error e
  | .ok newBoard =>
    let newEnPassantTarget : Option RawPos :=
      if move.piece.type == PieceType.pawn && (move.toSq.rank - move.fromSq.rank).natAbs == 2 then
        some ⟨move.fromSq.file, some ((move.fromSq.rank + move.toSq.rank) / 2)⟩
      else
        Option.none
    let newHalfMoveClock : Int :=
      if move.piece.type == PieceType.pawn || move.capturedPiece.isSome then 0
      else s.halfMoveClock + 1
    let newMoveHistory := s.moveHistory ++ [move]
    let newFullMoveNumber :=
      if s.currentTurn == Color.black then s.fullMoveNumber + 1 else s.fullMoveNumber
    let newCurrentTurn := ColorUtils.opposite s.currentTurn
    let re := checkGameEnd newBoard newCurrentTurn newEnPassantTarget newHalfMoveClock newMoveHistory
    .ok
      { board := newBoard
        currentTurn := newCurrentTurn
        moveHistory := newMoveHistory
        enPassantTarget := newEnPassantTarget
        halfMoveClock := newHalfMoveClock
        fullMoveNumber := newFullMoveNumber
        result := re.1
        endReason := re.2 }

/-- gameState.ts: `GameState.makeMove` — the four structured failures come back
as `success = false`; a successful application returns the new state. The
terminal throw path (promotion to pawn/king) surfaces as `Except.error`. -/
def makeMove (s : GameState) (fromPos toPos : Pos) (promotionType : Option PieceType) :
    Except String MoveResult :=
  match s.board.getPiece fromPos with
  | Option.none => .ok { success := false, error := some "No piece at source position" }
  | some piece =>
    if piece.color != s.currentTurn then
      .ok { success := false, error := some "Not your turn" }
    else
      let legalMoves := s.getLegalMovesForPiece piece
      match legalMoves.find? (fun m => PositionUtils.equals m.toSq toPos) with
      | Option.none => .ok { success := false, error := some "Illegal move" }
      | some foundMove =>
        let promotionNeeded :=
          piece.type == PieceType.pawn &&
            ((piece.color == Color.white && toPos.rank == 7) ||
              (piece.color == Color.black && toPos.rank == 0))
        let moveE : Except String (Option Move) :=
          if promotionNeeded then
            match promotionType with
            | Option.none => .ok Option.none
            | some pt =>
              .ok (some (Move.mk fromPos toPos piece foundMove.capturedPiece
                SpecialMoveType.pawnPromotion (some pt)))
          else
            .ok (some foundMove)
        match moveE with
        | .error e => .error e
        | .ok Option.none => .ok { success := false, error := some "Promotion type required" }
        | .ok (some move) =>
          match s.applyMove move with
          | .error e => .error e
          | .ok newState =>
            .ok
              { success := true
                move := some move
                newState := some newState
                isCheck := some (GameRules.isInCheck newState.board newState.currentTurn)
                isCheckmate := some (newState.result == GameResult.whiteWin ||
                  newState.result == GameResult.blackWin)
                isStalemate := some (newState.result == GameResult.draw &&
                  newState.endReason == some GameEndReason.stalemate) }

/-- gameState.ts: `GameState.resign` — the other color wins immediately. -/
def resign (s : GameState) : GameState :=
  { s with
    result := if s.currentTurn == Color.white then GameResult.blackWin else GameResult.whiteWin
    endReason := some GameEndReason.resignation }

/-- gameState.ts fromFEN: `fen.trim().split(/\s+/)` — splitting a trimmed
empty string yields `[""]`, otherwise the whitespace-separated tokens. -/
def fenParts (fen : String) : List String :=
  let t := trimChars fen.toList
  if t.isEmpty then [String.mk t]
  else (wsTokensAux t []).map String.mk

/-- gameState.ts: `GameState.fromFEN` — parses the six fields; a malformed
en-passant field that throws in `fromAlgebraic` is swallowed, the half-move and
full-move fields go through `parseInt(x) || default`. -/
def fromFEN (fen : String) : Except String GameState :=
  let parts := fenParts fen
  if parts.length ≠ 6 then
    .error "Invalid FEN: must have 6 parts"
  else
    let positionPart := parts.getD 0 ""
    let turnPart := parts.getD 1 ""
    let enPassantPart := parts.getD 3 ""
    let halfMovePart := parts.getD 4 ""
    let fullMovePart := parts.getD 5 ""
    match Board.fromFEN positionPart "-" with
    | .error e => .error e
    | .ok board =>
      let currentTurn := if turnPart == "w" then Color.white else Color.black
      let enPassantTarget : Option RawPos :=
        if enPassantPart ≠ "-" then
          match PositionUtils.fromAlgebraic enPassantPart with
          | .ok p => some p
          | .error _ => Option.none
        else
          Option.none
      let halfMoveClock : Int :=
        match jsParseInt halfMovePart with
        | some v => if v == 0 then 0 else v
        | Option.none => 0
      let fullMoveNumber : Int :=
        match jsParseInt fullMovePart with
        | some v => if v == 0 then 1 else v
        | Option.none => 1
      .ok
        { board := board
          currentTurn := currentTurn
          moveHistory := []
          enPassantTarget := enPassantTarget
          halfMoveClock := halfMoveClock
          fullMoveNumber := fullMoveNumber }

end GameState

/-!  Specification-side predicates, written from the spec's words, to be
compared against the embedded code.  -/

/-- Spec §4.2 getCastlingMoves, kingside, in the spec's king-relative words:
king not moved; rook at file 7 on the king's rank present, of Rook type, not
moved; all squares strictly between king and rook empty; the king's current
square and every square it passes through or lands on (file 6 inclusive) not
attacked by the opponent. -/
def specCastleKingside (king : Piece) (b : Board) : Prop :=
  king.hasMoved = false ∧
  (∃ rookPiece, b.getPiece ⟨7, king.pos.rank⟩ = some rookPiece ∧
    rookPiece.type = PieceType.rook ∧ rookPiece.hasMoved = false) ∧
  (∀ f : Int, king.pos.file < f → f < 7 → b.isEmpty ⟨f, king.pos.rank⟩ = true) ∧
  (∀ f : Int, king.pos.file ≤ f → f ≤ 6 →
    GameRules.isSquareAttacked b ⟨f, king.pos.rank⟩ king.color = false)

/-- Spec §4.2 getCastlingMoves, queenside, in the spec's king-relative words:
rook at file 0 on the king's rank; squares strictly between rook and king
empty; the king's current square down to its destination file 2 unattacked. -/
def specCastleQueenside (king : Piece) (b : Board) : Prop :=
  king.hasMoved = false ∧
  (∃ rookPiece, b.getPiece ⟨0, king.pos.rank⟩ = some rookPiece ∧
    rookPiece.type = PieceType.rook ∧ rookPiece.hasMoved = false) ∧
  (∀ f : Int, 0 < f → f < king.pos.file → b.isEmpty ⟨f, king.pos.rank⟩ = true) ∧
  (∀ f : Int, 2 ≤ f → f ≤ king.pos.file →
    GameRules.isSquareAttacked b ⟨f, king.pos.rank⟩ king.color = false)

/-- Spec §4.2 hasInsufficientMaterial, in the spec's words: exactly the two
kings; or one king-pair plus a single minor piece; or exactly two kings plus
two bishops on same-colored squares. -/
def specInsufficientMaterial (b : Board) : Prop :=
  (b.getAllPieces.length = 2 ∧ ∀ p ∈ b.getAllPieces, p.type = PieceType.king) ∨
  (b.getAllPieces.length = 3 ∧
    ∃ m, b.getAllPieces.filter (fun p => p.type != PieceType.king) = [m] ∧
      (m.type = PieceType.bishop ∨ m.type = PieceType.knight)) ∨
  (b.getAllPieces.length = 4 ∧
    b.getAllPieces.countP (fun p => p.type == PieceType.king) = 2 ∧
    ∃ b1 b2, b.getAllPieces.filter (fun p => p.type == PieceType.bishop) = [b1, b2] ∧
      Int.tmod (b1.pos.file + b1.pos.rank) 2 = Int.tmod (b2.pos.file + b2.pos.rank) 2)

/-- Exactly one king of each color on the board — the situation of every
position reachable in play. -/
def oneKingPerColor (b : Board) : Prop :=
  b.getAllPieces.countP (fun p => p.type == PieceType.king && p.color == Color.white) = 1 ∧
  b.getAllPieces.countP (fun p => p.type == PieceType.king && p.color == Color.black) = 1

/-!  Concrete inputs used by the counterexamples and witnesses.  -/

/-- White: Ke1 and Rh1, both unmoved; Black: pawn h2, king a8. Kingside
castling is offered (the black pawn does not "attack" the empty g1 square),
yet after castling the pawn attacks the king on g1. -/
def castleBugBoard : Board := Board.ofPieces [
  ⟨PieceType.king, Color.white, ⟨4, 0⟩, false⟩,
  ⟨PieceType.rook, Color.white, ⟨7, 0⟩, false⟩,
  ⟨PieceType.pawn, Color.black, ⟨7, 1⟩, false⟩,
  ⟨PieceType.king, Color.black, ⟨0, 7⟩, false⟩]

/-- A small position with a legal white pawn move, used for the
terminal-state counterexample. -/
def resignBoard : Board := Board.ofPieces [
  ⟨PieceType.king, Color.white, ⟨0, 0⟩, true⟩,
  ⟨PieceType.pawn, Color.white, ⟨1, 1⟩, false⟩,
  ⟨PieceType.king, Color.black, ⟨7, 7⟩, true⟩]

/-- A white pawn one step from promotion on e7, kings far apart. -/
def promoBoard : Board := Board.ofPieces [
  ⟨PieceType.king, Color.white, ⟨0, 0⟩, true⟩,
  ⟨PieceType.pawn, Color.white, ⟨4, 6⟩, true⟩,
  ⟨PieceType.king, Color.black, ⟨7, 7⟩, true⟩]

/-- An unmoved white king on d1 (file 3) with its own bishop on e1 between
king and rook — the fixed-square castling checks never look at e1's occupancy. -/
def offFileKingBoard : Board := Board.ofPieces [
  ⟨PieceType.king, Color.white, ⟨3, 0⟩, false⟩,
  ⟨PieceType.bishop, Color.white, ⟨4, 0⟩, false⟩,
  ⟨PieceType.rook, Color.white, ⟨7, 0⟩, false⟩,
  ⟨PieceType.king, Color.black, ⟨0, 7⟩, true⟩]

/-- The unmoved king piece sitting on d1 of `offFileKingBoard`. -/
def offFileKing : Piece := ⟨PieceType.king, Color.white, ⟨3, 0⟩, false⟩

/-- Two queens and no kings at all. -/
def twoQueensBoard : Board := Board.ofPieces [
  ⟨PieceType.queen, Color.white, ⟨0, 0⟩, true⟩,
  ⟨PieceType.queen, Color.black, ⟨7, 7⟩, true⟩]

/-- King versus king. -/
def kkBoard : Board := Board.ofPieces [
  ⟨PieceType.king, Color.white, ⟨0, 0⟩, true⟩,
  ⟨PieceType.king, Color.black, ⟨7, 7⟩, true⟩]

/-- White pawns on e5 and d5 (same color!), kings far apart: with en-passant
target d6 the engine offers an "en passant" capture of White's own d5 pawn. -/
def ownPawnEpBoard : Board := Board.ofPieces [
  ⟨PieceType.pawn, Color.white, ⟨4, 4⟩, true⟩,
  ⟨PieceType.pawn, Color.white, ⟨3, 4⟩, true⟩,
  ⟨PieceType.king, Color.white, ⟨0, 0⟩, true⟩,
  ⟨PieceType.king, Color.black, ⟨7, 7⟩, true⟩]

/-- The white e5 pawn of `ownPawnEpBoard`. -/
def ownPawnEpPawn : Piece := ⟨PieceType.pawn, Color.white, ⟨4, 4⟩, true⟩

/-- A legitimate en-passant position: white pawn e5, black pawn d5 (just
double-stepped), target d6. -/
def legitEpBoard : Board := Board.ofPieces [
  ⟨PieceType.pawn, Color.white, ⟨4, 4⟩, true⟩,
  ⟨PieceType.pawn, Color.black, ⟨3, 4⟩, true⟩,
  ⟨PieceType.king, Color.white, ⟨0, 0⟩, true⟩,
  ⟨PieceType.king, Color.black, ⟨7, 7⟩, true⟩]

/-- The white e5 pawn of `legitEpBoard`. -/
def legitEpPawn : Piece := ⟨PieceType.pawn, Color.white, ⟨4, 4⟩, true⟩

/-- The en-passant move e5xd6 that the engine returns on `legitEpBoard`. -/
def legitEpMove : Move :=
  Move.mk ⟨4, 4⟩ ⟨3, 5⟩ legitEpPawn (some ⟨PieceType.pawn, Color.black, ⟨3, 4⟩, true⟩)
    SpecialMoveType.enPassant Option.none

/-- `Except` success test. -/
def isOkB {α : Type} (e : Except String α) : Bool :=
  match e with
  | .ok _ => true
  | .error _ => false

/-- The board map invariant: distinct storage keys (at most one piece per
square), and every entry stored under the key of its piece's own position. -/
def Board.WF (b : Board) : Prop :=
  (b.entries.map Prod.fst).Nodup ∧ ∀ e ∈ b.entries, e.1 = e.2.pos

/-- Spec §4.3 end-condition detection, in the spec's words: against the new
board and new side to move, test checkmate (win for the mover), stalemate
(draw), insufficient material (draw), half-move clock ≥ 100 (fifty-move draw),
in that priority order, first match wins; otherwise the game is in progress. -/
def endConditionPriority (mover : Color) (ns : GameState) : Prop :=
  if GameRules.isCheckmate ns.board ns.currentTurn ns.enPassantTarget = true then
    ns.result = (if mover = Color.white then GameResult.whiteWin else GameResult.blackWin) ∧
      ns.endReason = some GameEndReason.checkmate
  else if GameRules.isStalemate ns.board ns.currentTurn ns.enPassantTarget = true then
    ns.result = GameResult.draw ∧ ns.endReason = some GameEndReason.stalemate
  else if GameRules.hasInsufficientMaterial ns.board = true then
    ns.result = GameResult.draw ∧ ns.endReason = some GameEndReason.insufficientMaterial
  else if ns.halfMoveClock ≥ 100 then
    ns.result = GameResult.draw ∧ ns.endReason = some GameEndReason.fiftyMoveRule
  else
    ns.result = GameResult.inProgress ∧ ns.endReason = Option.none

/-- The start state of the concrete end-condition witness: the small
`resignBoard` position with White to move. -/
def c6Start : GameState := GameState.createCustom resignBoard Color.white

/-- The `MoveResult` of playing b2–b3 from `c6Start`. -/
def c6Result : MoveResult :=
  match GameState.makeMove c6Start ⟨1, 1⟩ ⟨1, 2⟩ Option.none with
  | .ok r => r
  | .error _ => { success := false }

/-- The successor state inside `c6Result`. -/
def c6NewState : GameState :=
  match c6Result.newState with
  | some ns => ns
  | Option.none => GameState.createCustom ⟨[]⟩ Color.white

/-!  Claim theorems.  -/

/-- C1: refuted on the code — on `castleBugBoard`, `getAllLegalMoves` for
White contains the kingside castle e1–g1, yet applying it through
`GameState.makeMove` (the Game State's move application) yields a board on
which White, the mover, is in check: the black h2 pawn does not "attack" the
empty g1 square before the move (pawn capture squares only count when
occupied), so the castling-path test passes, but it does attack the king once
it stands there. The spec's core legality invariant fails. -/
theorem castling_move_leaves_mover_in_check :
  ((GameRules.getAllLegalMoves castleBugBoard Color.white Option.none).any (fun m =>
    m.fromSq == (⟨4, 0⟩ : Pos) && m.toSq == (⟨6, 0⟩ : Pos) &&
      m.specialMove == SpecialMoveType.castleKingside)) = true ∧
  (match GameState.makeMove (GameState.createCustom castleBugBoard Color.white)
      ⟨4, 0⟩ ⟨6, 0⟩ Option.none with
   | .ok r => r.success && (match r.newState with
       | some ns => GameRules.isInCheck ns.board Color.white
       | Option.none => false)
   | .error _ => false) = true := by
  constructor
  · decide
  · decide

/-- C2 counterexample: after `resign` the state is terminal (Black won), yet
`makeMove` b2–b3 still succeeds and returns a successor state. -/
theorem makeMove_succeeds_after_resign :
  ((GameState.createCustom resignBoard Color.white).resign).result ≠ GameResult.inProgress ∧
  (match GameState.makeMove ((GameState.createCustom resignBoard Color.white).resign)
      ⟨1, 1⟩ ⟨1, 2⟩ Option.none with
   | .ok r => r.success && r.newState.isSome
   | .error _ => false) = true := by
  constructor
  · decide
  · decide

/-- C3 counterexample: `makeMove` with promotion type King reaches
`Piece.promote`, which throws — the rule violation is not reported as a
`success = false` result. -/
theorem makeMove_throws_on_king_promotion :
  GameState.makeMove (GameState.createCustom promoBoard Color.white)
      ⟨4, 6⟩ ⟨4, 7⟩ (some PieceType.king) =
    .error "Cannot promote to pawn or king" := by
  rfl

/-- C4 counterexample: for the unmoved king on d1 (file 3), `getCastlingMoves`
still offers kingside castling although the square e1 strictly between king
and rook is occupied by White's own bishop — the code checks the fixed squares
f1/g1, not the squares between the king's actual file and the rook. -/
theorem getCastlingMoves_ignores_king_file :
  ((GameRules.getCastlingMoves offFileKing offFileKingBoard).any (fun m =>
    m.specialMove == SpecialMoveType.castleKingside)) = true ∧
  ¬ specCastleKingside offFileKing offFileKingBoard := by
  constructor
  · decide
  · intro h
    have h4 := h.2.2.1 4 (by decide) (by decide)
    exact absurd h4 (by decide)

/-- C5 counterexample: a board holding only two queens and no kings at all is
reported as insufficient material (the code only counts pieces), although none
of the claim's three material configurations holds. -/
theorem hasInsufficientMaterial_true_without_kings :
  GameRules.hasInsufficientMaterial twoQueensBoard = true ∧
  ¬ specInsufficientMaterial twoQueensBoard := by
  constructor
  · rfl
  · intro h
    rcases h with ⟨_, hall⟩ | ⟨hlen, _⟩ | ⟨hlen, _, _⟩
    · exact absurd (hall ⟨PieceType.queen, Color.white, ⟨0, 0⟩, true⟩ (by decide)) (by decide)
    · exact absurd hlen (by decide)
    · exact absurd hlen (by decide)

/-- C7: the round trip holds for every valid position, but the failure half of
the claim is refuted on the code: "ax" does not match `[a-h][1-8]`, yet
`fromAlgebraic` accepts it — `parseInt('x')` is NaN, and NaN fails both range
comparisons, so the result `{file 0, rank NaN}` is returned instead of an
error. -/
theorem fromAlgebraic_roundtrip_and_nan_slip :
  (∀ p : Pos, PositionUtils.isValid p = true →
    PositionUtils.fromAlgebraic (PositionUtils.toAlgebraic p) = .ok p.toRaw) ∧
  PositionUtils.fromAlgebraic "ax" = .ok ⟨0, Option.none⟩ := by
  constructor
  · intro p hp
    obtain ⟨f, r⟩ := p
    simp only [PositionUtils.isValid, Bool.and_eq_true, decide_eq_true_eq] at hp
    obtain ⟨⟨⟨hf0, hf7⟩, hr0⟩, hr7⟩ := hp
    interval_cases f <;> interval_cases r <;> rfl
  · rfl

/-- Witness for the round-trip half of C7's theorem at e4. -/
theorem fromAlgebraic_roundtrip_witness :
  PositionUtils.fromAlgebraic (PositionUtils.toAlgebraic ⟨4, 3⟩) = .ok (Pos.toRaw ⟨4, 3⟩) :=
  fromAlgebraic_roundtrip_and_nan_slip.1 ⟨4, 3⟩ (by decide)

/-- C8 counterexample: with en-passant target d6, the white e5 pawn is given
an "en passant" move even though the pawn one rank behind the target is
White's own d5 pawn — the captured piece's color is never checked, so the
claim's "opponent pawn" condition is violated while a non-null move is
returned. -/
theorem getEnPassantMove_captures_own_pawn :
  GameRules.getEnPassantMove ownPawnEpPawn ownPawnEpBoard ⟨3, some 5⟩ =
    some (Move.mk ⟨4, 4⟩ ⟨3, 5⟩ ownPawnEpPawn
      (some ⟨PieceType.pawn, Color.white, ⟨3, 4⟩, true⟩)
      SpecialMoveType.enPassant Option.none) ∧
  (⟨PieceType.pawn, Color.white, ⟨3, 4⟩, true⟩ : Piece).color = ownPawnEpPawn.color := by
  exact ⟨rfl, rfl⟩

/-- C9: refuted on the code — an en-passant field "ax" (first character a
valid file, second not a digit) is not silently ignored: `fromAlgebraic`
accepts it with a NaN rank, and `fromFEN` stores that garbage target instead
of leaving it unset. Fields the parser does reject ("e9") are ignored, and
non-numeric half-move and full-move fields default to 0 and 1 without error. -/
theorem fromFEN_sets_nan_en_passant_target :
  GameState.fromFEN "8/8/8/8/8/8/8/8 w - ax 12 34" =
    .ok { board := ⟨[]⟩, currentTurn := Color.white, moveHistory := [],
          enPassantTarget := some ⟨0, Option.none⟩,
          halfMoveClock := 12, fullMoveNumber := 34,
          result := GameResult.inProgress, endReason := Option.none } ∧
  GameState.fromFEN "8/8/8/8/8/8/8/8 b - e9 x y" =
    .ok { board := ⟨[]⟩, currentTurn := Color.black, moveHistory := [],
          enPassantTarget := Option.none,
          halfMoveClock := 0, fullMoveNumber := 1,
          result := GameResult.inProgress, endReason := Option.none } := by
  exact ⟨rfl, rfl⟩

/-- C2 (amended): `makeMove` never reads the `result` or `endReason` fields —
its outcome from a terminal state equals its outcome from the same state with
any other result, so terminal states accept exactly the moves InProgress ones
do. -/
theorem makeMove_ignores_result_field (s : GameState) (fromPos toPos : Pos)
    (promotionType : Option PieceType) (res : GameResult) (er : Option GameEndReason) :
  GameState.makeMove { s with result := res, endReason := er } fromPos toPos promotionType =
    GameState.makeMove s fromPos toPos promotionType := by
  cases s
  rfl

/-!  Board map invariant (C10).  -/

/-- `setPiece` preserves the board map invariant. -/
theorem setPiece_WF {b : Board} (h : b.WF) (pc : Piece) : (b.setPiece pc).WF := by
  obtain ⟨hnd, hpos⟩ := h
  unfold Board.setPiece
  split
  · refine ⟨?_, ?_⟩
    · have hkeys :
        b.entries.map (Prod.fst ∘ fun e => if e.1 == pc.pos then (pc.pos, pc) else e)
          = b.entries.map Prod.fst := by
        apply List.map_congr_left
        intro e _
        by_cases hc : e.1 == pc.pos
        · simp only [Function.comp_apply, hc, if_pos]
          exact (beq_iff_eq.mp hc).symm
        · rw [Function.comp_apply, if_neg hc]
      rw [List.map_map, hkeys]
      exact hnd
    · intro e he
      rw [List.mem_map] at he
      obtain ⟨e0, he0, rfl⟩ := he
      by_cases hc : e0.1 == pc.pos
      · simp [hc]
      · simpa [hc] using hpos e0 he0
  · rename_i hany
    refine ⟨?_, ?_⟩
    · rw [List.map_append]
      simp only [List.map_cons, List.map_nil]
      rw [List.nodup_append]
      refine ⟨hnd, List.nodup_singleton _, ?_⟩
      intro k hk hke
      rw [List.mem_singleton] at hke
      subst hke
      rw [List.mem_map] at hk
      obtain ⟨e0, he0, hfst⟩ := hk
      rw [List.any_eq_true] at hany
      exact hany ⟨e0, he0, beq_iff_eq.mpr hfst⟩
    · intro e he
      rw [List.mem_append] at he
      rcases he with he | he
      · exact hpos e he
      · simp only [List.mem_singleton] at he
        subst he
        rfl

/-- `removePiece` preserves the board map invariant. -/
theorem removePiece_WF {b : Board} (h : b.WF) (p : Pos) : (b.removePiece p).WF := by
  obtain ⟨hnd, hpos⟩ := h
  refine ⟨?_, ?_⟩
  · exact hnd.sublist ((List.filter_sublist b.entries).map Prod.fst)
  · intro e he
    exact hpos e (List.mem_of_mem_filter he)

/-- Rebuilding a board by folding `setPiece` over any piece list preserves
the invariant of the accumulator. -/
theorem foldl_setPiece_WF (l : List Piece) :
    ∀ b : Board, b.WF → (l.foldl Board.setPiece b).WF := by
  induction l with
  | nil => intro b h; exact h
  | cons pc rest ih =>
    intro b h
    exact ih _ (setPiece_WF h pc)

/-- Boards built from a piece list satisfy the invariant. -/
theorem ofPieces_WF (pieces : List Piece) : (Board.ofPieces pieces).WF :=
  foldl_setPiece_WF pieces ⟨[]⟩ ⟨List.nodup_nil, by intro e he; cases he⟩

/-- Under the invariant, `getPiece` returns a piece whose stored position is
the queried one. -/
theorem getPiece_pos {b : Board} (h : b.WF) {p : Pos} {pc : Piece}
    (hg : b.getPiece p = some pc) : pc.pos = p := by
  unfold Board.getPiece at hg
  cases hf : b.entries.find? (fun e => e.1 == p) with
  | none => rw [hf] at hg; cases hg
  | some e =>
    rw [hf] at hg
    have hg2 : e.2 = pc := by simpa using hg
    have hpa := List.find?_some hf
    have hkey : e.1 = p := by simpa using hpa
    have hmem : e ∈ b.entries := List.mem_of_find?_eq_some hf
    rw [← hg2, ← h.2 e hmem, hkey]

/-- C10: the board map invariant — every constructor and mutation of `Board`
keeps at most one piece per position (distinct storage keys) and stores each
piece under its own position, so `getPiece p` yields a piece whose position is
`p`. -/
theorem board_map_invariant :
  (∀ pieces : List Piece, (Board.ofPieces pieces).WF) ∧
  (∀ fen castlingRights b, Board.fromFEN fen castlingRights = .ok b → b.WF) ∧
  (∀ (b : Board) (pc : Piece), b.WF → (b.setPiece pc).WF) ∧
  (∀ (b : Board) (p : Pos), b.WF → (b.removePiece p).WF) ∧
  (∀ (b : Board) (p q : Pos) (b2 : Board), b.WF → b.movePiece p q = .ok b2 → b2.WF) ∧
  (∀ b : Board, b.WF → b.clone.WF) ∧
  (∀ (b : Board) (p : Pos) (pc : Piece), b.WF → b.getPiece p = some pc → pc.pos = p) := by
  refine ⟨ofPieces_WF, ?_, fun b pc h => setPiece_WF h pc,
    fun b p h => removePiece_WF h p, ?_, ?_, fun b p pc h hg => getPiece_pos h hg⟩
  · intro fen castlingRights b hok
    unfold Board.fromFEN at hok
    dsimp only at hok
    split at hok
    · cases hok
    · split at hok
      · cases hok
      · rw [Except.ok.injEq] at hok
        subst hok
        exact ofPieces_WF _
  · intro b p q b2 h hmv
    unfold Board.movePiece at hmv
    split at hmv
    · cases hmv
    · rw [Except.ok.injEq] at hmv
      subst hmv
      exact setPiece_WF (removePiece_WF h p) _
  · intro b h
    exact ofPieces_WF _

/-- Witness for C10 at a concrete board: adding a rook to the two-king board
keeps the invariant, and `getPiece` on a1 returns the white king with the
queried position. -/
theorem board_map_invariant_witness :
  (kkBoard.setPiece ⟨PieceType.rook, Color.white, ⟨3, 3⟩, true⟩).WF ∧
  (⟨PieceType.king, Color.white, ⟨0, 0⟩, true⟩ : Piece).pos = (⟨0, 0⟩ : Pos) :=
  ⟨board_map_invariant.2.2.1 kkBoard ⟨PieceType.rook, Color.white, ⟨3, 3⟩, true⟩
     ⟨by decide, by decide⟩,
   board_map_invariant.2.2.2.2.2.2 kkBoard ⟨0, 0⟩ ⟨PieceType.king, Color.white, ⟨0, 0⟩, true⟩
     ⟨by decide, by decide⟩ rfl⟩

/-!  En-passant only-if characterization (C8).  -/

/-- A successful `epTryFile` pins down all the claim's conditions for its
capture file. -/
theorem epTryFile_some {pawn : Piece} {board : Board} {target : RawPos}
    {tr cf : Int} {m : Move}
    (h : GameRules.epTryFile pawn board target tr cf = some m) :
    cf = target.file ∧
    pawn.pos.rank + pawnDirection pawn.color = tr ∧
    ((board.getPiece ⟨target.file, pawn.pos.rank⟩).any
      (fun q => q.type == PieceType.pawn)) = true ∧
    GameRules.isMoveLegal m board = true ∧
    m = Move.mk pawn.pos ⟨target.file, tr⟩ pawn (board.getPiece ⟨target.file, pawn.pos.rank⟩)
      SpecialMoveType.enPassant Option.none := by
  unfold GameRules.epTryFile at h
  split at h
  · rename_i hcond
    rw [Bool.and_eq_true] at hcond
    obtain ⟨hcf, hrk⟩ := hcond
    dsimp only at h
    cases hget : board.getPiece ⟨target.file, pawn.pos.rank⟩ with
    | none =>
      rw [hget] at h
      dsimp only at h
      cases h
    | some q =>
      rw [hget] at h
      dsimp only at h
      split at h
      · rename_i hq
        split at h
        · rename_i hleg
          rw [Option.some.injEq] at h
          refine ⟨beq_iff_eq.mp hcf, beq_iff_eq.mp hrk, ?_, ?_, ?_⟩
          · simpa using hq
          · rw [← h]
            exact hleg
          · exact h.symm
        · cases h
      · cases h
  · cases h

/-- C8 (amended): a non-null result of `getEnPassantMove` implies the piece is
a pawn, the target sits diagonally forward of it, the square one rank behind
the target (the pawn's own rank) holds a piece of Pawn type (of either color),
the constructed move passes `isMoveLegal`, and the move is exactly the
en-passant move onto the target. -/
theorem getEnPassantMove_only_if (pawn : Piece) (b : Board) (target : RawPos) (m : Move)
    (h : GameRules.getEnPassantMove pawn b target = some m) :
    pawn.type = PieceType.pawn ∧
    target.rank = some (pawn.pos.rank + pawnDirection pawn.color) ∧
    (target.file = pawn.pos.file - 1 ∨ target.file = pawn.pos.file + 1) ∧
    ((b.getPiece ⟨target.file, pawn.pos.rank⟩).any (fun q => q.type == PieceType.pawn)) = true ∧
    GameRules.isMoveLegal m b = true ∧
    m = Move.mk pawn.pos
      ⟨target.file, pawn.pos.rank + pawnDirection pawn.color⟩
      pawn (b.getPiece ⟨target.file, pawn.pos.rank⟩) SpecialMoveType.enPassant Option.none := by
  unfold GameRules.getEnPassantMove at h
  split at h
  · cases h
  · rename_i hpt
    have hpawn : pawn.type = PieceType.pawn := by
      by_contra hne
      simp [hne] at hpt
    cases htr : target.rank with
    | none =>
      rw [htr] at h
      dsimp only at h
      cases h
    | some tr =>
      rw [htr] at h
      dsimp only at h
      cases h1 : GameRules.epTryFile pawn b target tr (pawn.pos.file - 1) with
      | some m1 =>
        rw [h1] at h
        rw [Option.some.injEq] at h
        subst h
        obtain ⟨hcf, hrk, hq, hleg, hm⟩ := epTryFile_some h1
        rw [← hrk]
        exact ⟨hpawn, rfl, Or.inl hcf.symm, hq, hleg, by rw [hm, hrk]⟩
      | none =>
        rw [h1] at h
        dsimp only at h
        obtain ⟨hcf, hrk, hq, hleg, hm⟩ := epTryFile_some h
        rw [← hrk]
        exact ⟨hpawn, rfl, Or.inr hcf.symm, hq, hleg, by rw [hm, hrk]⟩

/-- Witness for C8's only-if theorem at the legitimate en-passant position
e5xd6. -/
theorem getEnPassantMove_only_if_witness :
    legitEpPawn.type = PieceType.pawn ∧
    (⟨3, some 5⟩ : RawPos).rank =
      some (legitEpPawn.pos.rank + pawnDirection legitEpPawn.color) ∧
    ((3 : Int) = legitEpPawn.pos.file - 1 ∨ (3 : Int) = legitEpPawn.pos.file + 1) ∧
    ((legitEpBoard.getPiece ⟨3, legitEpPawn.pos.rank⟩).any
      (fun q => q.type == PieceType.pawn)) = true ∧
    GameRules.isMoveLegal legitEpMove legitEpBoard = true ∧
    legitEpMove = Move.mk legitEpPawn.pos
      ⟨3, legitEpPawn.pos.rank + pawnDirection legitEpPawn.color⟩
      legitEpPawn (legitEpBoard.getPiece ⟨3, legitEpPawn.pos.rank⟩)
      SpecialMoveType.enPassant Option.none :=
  getEnPassantMove_only_if legitEpPawn legitEpBoard ⟨3, some 5⟩ legitEpMove (by decide)

/-!  Castling characterization (C4).  -/

/-- The kingside block yields a kingside-tagged move exactly when the rook is
found and the seven hard-coded checks pass. -/
theorem castlingKingsideList_any (king : Piece) (b : Board) :
    ((GameRules.castlingKingsideList king b).any (fun m =>
      m.specialMove == SpecialMoveType.castleKingside)) = true ↔
    (∃ r, b.getPiece ⟨7, king.pos.rank⟩ = some r ∧
      (r.type == PieceType.rook && !r.hasMoved &&
        b.isEmpty ⟨5, king.pos.rank⟩ && b.isEmpty ⟨6, king.pos.rank⟩ &&
        !(GameRules.isSquareAttacked b ⟨4, king.pos.rank⟩ king.color) &&
        !(GameRules.isSquareAttacked b ⟨5, king.pos.rank⟩ king.color) &&
        !(GameRules.isSquareAttacked b ⟨6, king.pos.rank⟩ king.color)) = true) := by
  unfold GameRules.castlingKingsideList
  dsimp only
  cases hk : b.getPiece ⟨7, king.pos.rank⟩ with
  | none =>
    constructor
    · intro h; cases h
    · rintro ⟨r, hr, _⟩; cases hr
  | some r =>
    dsimp only
    split
    · rename_i hcond
      constructor
      · intro _
        exact ⟨r, rfl, hcond⟩
      · intro _
        rfl
    · rename_i hcond
      constructor
      · intro h; cases h
      · rintro ⟨r', hr', hcnd⟩
        rw [Option.some.injEq] at hr'
        subst hr'
        exact absurd hcnd hcond

/-- The queenside block yields a queenside-tagged move exactly when the rook
is found and the eight hard-coded checks pass. -/
theorem castlingQueensideList_any (king : Piece) (b : Board) :
    ((GameRules.castlingQueensideList king b).any (fun m =>
      m.specialMove == SpecialMoveType.castleQueenside)) = true ↔
    (∃ r, b.getPiece ⟨0, king.pos.rank⟩ = some r ∧
      (r.type == PieceType.rook && !r.hasMoved &&
        b.isEmpty ⟨1, king.pos.rank⟩ && b.isEmpty ⟨2, king.pos.rank⟩ &&
        b.isEmpty ⟨3, king.pos.rank⟩ &&
        !(GameRules.isSquareAttacked b ⟨4, king.pos.rank⟩ king.color) &&
        !(GameRules.isSquareAttacked b ⟨3, king.pos.rank⟩ king.color) &&
        !(GameRules.isSquareAttacked b ⟨2, king.pos.rank⟩ king.color)) = true) := by
  unfold GameRules.castlingQueensideList
  dsimp only
  cases hk : b.getPiece ⟨0, king.pos.rank⟩ with
  | none =>
    constructor
    · intro h; cases h
    · rintro ⟨r, hr, _⟩; cases hr
  | some r =>
    dsimp only
    split
    · rename_i hcond
      constructor
      · intro _
        exact ⟨r, rfl, hcond⟩
      · intro _
        rfl
    · rename_i hcond
      constructor
      · intro h; cases h
      · rintro ⟨r', hr', hcnd⟩
        rw [Option.some.injEq] at hr'
        subst hr'
        exact absurd hcnd hcond

/-- The queenside block never produces a kingside-tagged move. -/
theorem castlingQueensideList_no_kingside (king : Piece) (b : Board) :
    ((GameRules.castlingQueensideList king b).any (fun m =>
      m.specialMove == SpecialMoveType.castleKingside)) = false := by
  unfold GameRules.castlingQueensideList
  dsimp only
  cases hk : b.getPiece ⟨0, king.pos.rank⟩ with
  | none => rfl
  | some r =>
    dsimp only
    split
    · rfl
    · rfl

/-- The kingside block never produces a queenside-tagged move. -/
theorem castlingKingsideList_no_queenside (king : Piece) (b : Board) :
    ((GameRules.castlingKingsideList king b).any (fun m =>
      m.specialMove == SpecialMoveType.castleQueenside)) = false := by
  unfold GameRules.castlingKingsideList
  dsimp only
  cases hk : b.getPiece ⟨7, king.pos.rank⟩ with
  | none => rfl
  | some r =>
    dsimp only
    split
    · rfl
    · rfl

/-- C4 (amended): for every board and every unmoved king piece standing on
file 4 — its castling start file, where the code's hard-coded squares coincide
with the spec's king-relative ones — `getCastlingMoves` offers a side's
castling move iff the claim's conditions hold: rook present/unmoved at the
corner of the king's rank, the squares strictly between king and rook empty,
and the king's current, transit and destination squares unattacked. -/
theorem getCastlingMoves_characterization_on_file4 (king : Piece) (b : Board)
    (htype : king.type = PieceType.king) (hfile : king.pos.file = 4) :
    (((GameRules.getCastlingMoves king b).any (fun m =>
        m.specialMove == SpecialMoveType.castleKingside)) = true ↔
      specCastleKingside king b) ∧
    (((GameRules.getCastlingMoves king b).any (fun m =>
        m.specialMove == SpecialMoveType.castleQueenside)) = true ↔
      specCastleQueenside king b) := by
  unfold GameRules.getCastlingMoves
  have hguard : (king.type != PieceType.king || king.hasMoved) = king.hasMoved := by
    simp [htype]
  rw [hguard]
  cases hmv : king.hasMoved with
  | true =>
    rw [if_pos rfl]
    constructor <;> constructor
    · intro h; cases h
    · intro hsp; rw [hsp.1] at hmv; cases hmv
    · intro h; cases h
    · intro hsp; rw [hsp.1] at hmv; cases hmv
  | false =>
    rw [if_neg (by simp)]
    rw [List.any_append, List.any_append]
    constructor
    · rw [castlingQueensideList_no_kingside, Bool.or_false, castlingKingsideList_any]
      constructor
      · rintro ⟨r, hr, hcond⟩
        simp only [Bool.and_eq_true, and_assoc, Bool.not_eq_true', beq_iff_eq] at hcond
        obtain ⟨hrt, hrm, he5, he6, ha4, ha5, ha6⟩ := hcond
        refine ⟨hmv, ⟨r, hr, hrt, hrm⟩, ?_, ?_⟩
        · intro f h1 h2
          rw [hfile] at h1
          have hf : f = 5 ∨ f = 6 := by omega
          rcases hf with rfl | rfl
          · exact he5
          · exact he6
        · intro f h1 h2
          rw [hfile] at h1
          have hf : f = 4 ∨ f = 5 ∨ f = 6 := by omega
          rcases hf with rfl | rfl | rfl
          · exact ha4
          · exact ha5
          · exact ha6
      · rintro ⟨_, ⟨r, hr, hrt, hrm⟩, hbetween, hatt⟩
        refine ⟨r, hr, ?_⟩
        simp only [Bool.and_eq_true, and_assoc, Bool.not_eq_true', beq_iff_eq]
        exact ⟨hrt, hrm,
          hbetween 5 (by omega) (by omega), hbetween 6 (by omega) (by omega),
          hatt 4 (by omega) (by omega), hatt 5 (by omega) (by omega),
          hatt 6 (by omega) (by omega)⟩
    · rw [castlingKingsideList_no_queenside, Bool.false_or, castlingQueensideList_any]
      constructor
      · rintro ⟨r, hr, hcond⟩
        simp only [Bool.and_eq_true, and_assoc, Bool.not_eq_true', beq_iff_eq] at hcond
        obtain ⟨hrt, hrm, he1, he2, he3, ha4, ha3, ha2⟩ := hcond
        refine ⟨hmv, ⟨r, hr, hrt, hrm⟩, ?_, ?_⟩
        · intro f h1 h2
          rw [hfile] at h2
          have hf : f = 1 ∨ f = 2 ∨ f = 3 := by omega
          rcases hf with rfl | rfl | rfl
          · exact he1
          · exact he2
          · exact he3
        · intro f h1 h2
          rw [hfile] at h2
          have hf : f = 2 ∨ f = 3 ∨ f = 4 := by omega
          rcases hf with rfl | rfl | rfl
          · exact ha2
          · exact ha3
          · exact ha4
      · rintro ⟨_, ⟨r, hr, hrt, hrm⟩, hbetween, hatt⟩
        refine ⟨r, hr, ?_⟩
        simp only [Bool.and_eq_true, and_assoc, Bool.not_eq_true', beq_iff_eq]
        exact ⟨hrt, hrm,
          hbetween 1 (by omega) (by omega), hbetween 2 (by omega) (by omega),
          hbetween 3 (by omega) (by omega),
          hatt 4 (by omega) (by omega), hatt 3 (by omega) (by omega),
          hatt 2 (by omega) (by omega)⟩

/-- Witness for C4's characterization: on `castleBugBoard` the king stands on
file 4, the spec conditions hold, and the theorem yields the kingside move. -/
theorem getCastlingMoves_characterization_witness :
    ((GameRules.getCastlingMoves ⟨PieceType.king, Color.white, ⟨4, 0⟩, false⟩
      castleBugBoard).any (fun m =>
        m.specialMove == SpecialMoveType.castleKingside)) = true :=
  ((getCastlingMoves_characterization_on_file4
      ⟨PieceType.king, Color.white, ⟨4, 0⟩, false⟩ castleBugBoard rfl rfl).1).mpr
    (by
      refine ⟨rfl, ⟨⟨PieceType.rook, Color.white, ⟨7, 0⟩, false⟩, by decide, rfl, rfl⟩, ?_, ?_⟩
      · intro f h1 h2
        have h1' : (4 : Int) < f := h1
        have hf : f = 5 ∨ f = 6 := by omega
        rcases hf with rfl | rfl
        · decide
        · decide
      · intro f h1 h2
        have h1' : (4 : Int) ≤ f := h1
        have hf : f = 4 ∨ f = 5 ∨ f = 6 := by omega
        rcases hf with rfl | rfl | rfl
        · decide
        · decide
        · decide)

/-!  Insufficient-material characterization (C5).  -/

/-- A count splits into the counts of its two complementary refinements. -/
theorem countP_not_add {α : Type} (p : α → Bool) (l : List α) :
    l.countP p + l.countP (fun a => !(p a)) = l.length := by
  induction l with
  | nil => rfl
  | cons a t ih =>
    simp only [List.countP_cons, List.length_cons]
    cases h : p a <;> simp [h] <;> omega

/-- Kings split into white kings and black kings. -/
theorem countP_king_color_split (l : List Piece) :
    l.countP (fun p => p.type == PieceType.king) =
      l.countP (fun p => p.type == PieceType.king && p.color == Color.white) +
      l.countP (fun p => p.type == PieceType.king && p.color == Color.black) := by
  induction l with
  | nil => rfl
  | cons p rest ih =>
    simp only [List.countP_cons, ih]
    cases hk : p.type == PieceType.king <;> cases hcol : p.color <;>
      simp [hk, hcol] <;> omega

/-- C5 (amended): on every board carrying exactly one king of each color,
`hasInsufficientMaterial` is true iff the claim's three material
configurations: bare kings, kings plus one minor piece, or kings plus two
same-square-color bishops. -/
theorem hasInsufficientMaterial_characterization_with_kings (b : Board)
    (hk : oneKingPerColor b) :
    GameRules.hasInsufficientMaterial b = true ↔ specInsufficientMaterial b := by
  obtain ⟨hw, hbk⟩ := hk
  have hkings : b.getAllPieces.countP (fun p => p.type == PieceType.king) = 2 := by
    rw [countP_king_color_split, hw, hbk]
  by_cases h2 : b.getAllPieces.length = 2
  · have hcode : GameRules.hasInsufficientMaterial b = true := by
      unfold GameRules.hasInsufficientMaterial
      dsimp only
      rw [if_pos (by simp [h2])]
    rw [hcode]
    constructor
    · intro _
      left
      refine ⟨h2, fun p hp => ?_⟩
      have hall := List.countP_eq_length.mp (by rw [hkings, h2]) p hp
      exact beq_iff_eq.mp hall
    · intro _
      rfl
  · by_cases h3 : b.getAllPieces.length = 3
    · have hnk : (b.getAllPieces.filter (fun p => p.type != PieceType.king)).length = 1 := by
        have hsum := countP_not_add (fun p => p.type == PieceType.king) b.getAllPieces
        have hone : b.getAllPieces.countP (fun p => !(p.type == PieceType.king)) = 1 := by
          omega
        rw [← List.countP_eq_length_filter]
        exact hone
      obtain ⟨m, hm⟩ := List.length_eq_one.mp hnk
      have hcode : GameRules.hasInsufficientMaterial b =
          (m.type == PieceType.bishop || m.type == PieceType.knight) := by
        unfold GameRules.hasInsufficientMaterial
        dsimp only
        rw [if_neg (by simpa using h2), if_pos (by simp [h3]), hm]
      rw [hcode]
      constructor
      · intro h
        right; left
        refine ⟨h3, m, hm, ?_⟩
        simp only [Bool.or_eq_true, beq_iff_eq] at h
        exact h
      · rintro (⟨hlen, -⟩ | ⟨-, m', hm', hminor⟩ | ⟨hlen, -, -⟩)
        · exact absurd hlen h2
        · rw [hm] at hm'
          simp only [List.cons.injEq, and_true] at hm'
          subst hm'
          rcases hminor with h | h <;> simp [h]
        · exact absurd hlen (by omega)
    · by_cases h4 : b.getAllPieces.length = 4
      · have hcode : GameRules.hasInsufficientMaterial b =
            (match b.getAllPieces.filter (fun p => p.type == PieceType.bishop) with
             | [b1, b2] => Int.tmod (b1.pos.file + b1.pos.rank) 2 ==
                 Int.tmod (b2.pos.file + b2.pos.rank) 2
             | _ => false) := by
          unfold GameRules.hasInsufficientMaterial
          dsimp only
          rw [if_neg (by simpa using h2), if_neg (by simpa using h3), if_pos (by simp [h4])]
        rw [hcode]
        cases hbf : b.getAllPieces.filter (fun p => p.type == PieceType.bishop) with
        | nil =>
          constructor
          · intro h; cases h
          · rintro (⟨hlen, -⟩ | ⟨hlen, -⟩ | ⟨-, -, b1, b2, hbf', -⟩)
            · exact absurd hlen h2
            · exact absurd hlen h3
            · rw [hbf] at hbf'
              cases hbf'
        | cons x1 t1 =>
          cases t1 with
          | nil =>
            constructor
            · intro h; cases h
            · rintro (⟨hlen, -⟩ | ⟨hlen, -⟩ | ⟨-, -, b1, b2, hbf', -⟩)
              · exact absurd hlen h2
              · exact absurd hlen h3
              · rw [hbf] at hbf'
                cases hbf'
          | cons x2 t2 =>
            cases t2 with
            | nil =>
              constructor
              · intro h
                right; right
                exact ⟨h4, hkings, x1, x2, hbf, beq_iff_eq.mp h⟩
              · rintro (⟨hlen, -⟩ | ⟨hlen, -⟩ | ⟨-, -, b1, b2, hbf', hpar⟩)
                · exact absurd hlen h2
                · exact absurd hlen h3
                · rw [hbf] at hbf'
                  simp only [List.cons.injEq, and_true] at hbf'
                  obtain ⟨rfl, rfl⟩ := hbf'
                  exact beq_iff_eq.mpr hpar
            | cons x3 t3 =>
              constructor
              · intro h; cases h
              · rintro (⟨hlen, -⟩ | ⟨hlen, -⟩ | ⟨-, -, b1, b2, hbf', -⟩)
                · exact absurd hlen h2
                · exact absurd hlen h3
                · rw [hbf] at hbf'
                  cases hbf'
      · have hcode : GameRules.hasInsufficientMaterial b = false := by
          unfold GameRules.hasInsufficientMaterial
          dsimp only
          rw [if_neg (by simpa using h2), if_neg (by simpa using h3),
            if_neg (by simpa using h4)]
        rw [hcode]
        constructor
        · intro h; cases h
        · rintro (⟨hlen, -⟩ | ⟨hlen, -⟩ | ⟨hlen, -, -⟩)
          · exact absurd hlen h2
          · exact absurd hlen h3
          · exact absurd hlen h4

/-- Witness for C5's characterization on the bare-kings board. -/
theorem hasInsufficientMaterial_kk_witness :
    GameRules.hasInsufficientMaterial kkBoard = true :=
  (hasInsufficientMaterial_characterization_with_kings kkBoard ⟨by decide, by decide⟩).mpr
    (Or.inl ⟨by decide, by decide⟩)

/-!  makeMove never throws except for pawn/king promotion (C3).  -/

/-- Basic legal moves carry the None special tag. -/
theorem basicLegalMoves_tag {piece : Piece} {b : Board} {m : Move}
    (h : m ∈ GameRules.basicLegalMoves piece b) : m.specialMove = SpecialMoveType.none := by
  unfold GameRules.basicLegalMoves at h
  rw [List.mem_filterMap] at h
  obtain ⟨t, _, hf⟩ := h
  dsimp only at hf
  split at hf
  · rw [Option.some.injEq] at hf
    rw [← hf]
  · cases hf

/-- Kingside-block moves carry the kingside tag. -/
theorem castlingKingsideList_tag {king : Piece} {b : Board} {m : Move}
    (h : m ∈ GameRules.castlingKingsideList king b) :
    m.specialMove = SpecialMoveType.castleKingside := by
  unfold GameRules.castlingKingsideList at h
  dsimp only at h
  rcases hk : b.getPiece ⟨7, king.pos.rank⟩ with - | r <;> rw [hk] at h <;> dsimp only at h
  · cases h
  · split at h
    · rw [List.mem_singleton] at h
      rw [h]
    · cases h

/-- Queenside-block moves carry the queenside tag. -/
theorem castlingQueensideList_tag {king : Piece} {b : Board} {m : Move}
    (h : m ∈ GameRules.castlingQueensideList king b) :
    m.specialMove = SpecialMoveType.castleQueenside := by
  unfold GameRules.castlingQueensideList at h
  dsimp only at h
  rcases hk : b.getPiece ⟨0, king.pos.rank⟩ with - | r <;> rw [hk] at h <;> dsimp only at h
  · cases h
  · split at h
    · rw [List.mem_singleton] at h
      rw [h]
    · cases h

/-- Castling moves carry a castling tag. -/
theorem getCastlingMoves_tag {king : Piece} {b : Board} {m : Move}
    (h : m ∈ GameRules.getCastlingMoves king b) :
    m.specialMove = SpecialMoveType.castleKingside ∨
      m.specialMove = SpecialMoveType.castleQueenside := by
  unfold GameRules.getCastlingMoves at h
  split at h
  · cases h
  · rw [List.mem_append] at h
    rcases h with h | h
    · exact Or.inl (castlingKingsideList_tag h)
    · exact Or.inr (castlingQueensideList_tag h)

/-- The en-passant move carries the en-passant tag. -/
theorem getEnPassantMove_tag {pawn : Piece} {b : Board} {target : RawPos} {m : Move}
    (h : GameRules.getEnPassantMove pawn b target = some m) :
    m.specialMove = SpecialMoveType.enPassant := by
  unfold GameRules.getEnPassantMove at h
  split at h
  · cases h
  · cases htr : target.rank with
    | none =>
      rw [htr] at h
      dsimp only at h
      cases h
    | some tr =>
      rw [htr] at h
      dsimp only at h
      cases h1 : GameRules.epTryFile pawn b target tr (pawn.pos.file - 1) with
      | some m1 =>
        rw [h1] at h
        rw [Option.some.injEq] at h
        subst h
        obtain ⟨-, -, -, -, hm⟩ := epTryFile_some h1
        rw [hm]
      | none =>
        rw [h1] at h
        dsimp only at h
        obtain ⟨-, -, -, -, hm⟩ := epTryFile_some h
        rw [hm]

/-- No move produced by `getLegalMoves` is tagged as a pawn promotion — that
tag is only attached later, inside `makeMove`. -/
theorem getLegalMoves_not_promotion {piece : Piece} {b : Board} {ept : Option RawPos} {m : Move}
    (h : m ∈ GameRules.getLegalMoves piece b ept) :
    m.specialMove ≠ SpecialMoveType.pawnPromotion := by
  have hwc : m ∈ (if piece.type == PieceType.king then
      GameRules.basicLegalMoves piece b ++ GameRules.getCastlingMoves piece b
    else
      GameRules.basicLegalMoves piece b) →
      m.specialMove ≠ SpecialMoveType.pawnPromotion := by
    intro hm
    split at hm
    · rw [List.mem_append] at hm
      rcases hm with hm | hm
      · rw [basicLegalMoves_tag hm]
        intro hx
        cases hx
      · rcases getCastlingMoves_tag hm with ht | ht <;> rw [ht] <;> intro hx <;> cases hx
    · rw [basicLegalMoves_tag hm]
      intro hx
      cases hx
  unfold GameRules.getLegalMoves at h
  dsimp only at h
  cases ept with
  | none => exact hwc h
  | some target =>
    dsimp only at h
    split at h
    · cases hep : GameRules.getEnPassantMove piece b target with
      | some e =>
        rw [hep] at h
        dsimp only at h
        rw [List.mem_append] at h
        rcases h with h | h
        · exact hwc h
        · rw [List.mem_singleton] at h
          subst h
          rw [getEnPassantMove_tag hep]
          intro hx
          cases hx
      | none =>
        rw [hep] at h
        dsimp only at h
        exact hwc h
    · exact hwc h

/-- `applyPromotion` succeeds whenever any requested promotion type is neither
pawn nor king and the moving piece is a pawn. -/
theorem applyPromotion_ok (board : Board) (move : Move)
    (hp : ∀ t, move.promotionType = some t →
      move.piece.type = PieceType.pawn ∧ t ≠ PieceType.pawn ∧ t ≠ PieceType.king) :
    ∃ bb, GameState.applyPromotion board move = .ok bb := by
  unfold GameState.applyPromotion
  dsimp only
  cases hqt : move.promotionType with
  | none => exact ⟨_, rfl⟩
  | some t =>
    obtain ⟨hpw, hnp, hnk⟩ := hp t hqt
    have hpr : move.piece.promote t =
        .ok ⟨t, move.piece.color, move.piece.pos, true⟩ := by
      unfold Piece.promote
      rw [if_neg (by simp [hpw]), if_neg (by rintro (rfl | rfl) <;> simp_all)]
    dsimp only
    rw [hpr]
    exact ⟨_, rfl⟩

/-- `applyMove` succeeds whenever a promotion-tagged move carries a valid
promotion type. -/
theorem applyMove_ok (s : GameState) (move : Move)
    (hp : move.specialMove = SpecialMoveType.pawnPromotion →
      ∀ t, move.promotionType = some t →
        move.piece.type = PieceType.pawn ∧ t ≠ PieceType.pawn ∧ t ≠ PieceType.king) :
    ∃ ns, GameState.applyMove s move = .ok ns := by
  unfold GameState.applyMove
  have hboard : ∃ nb, GameState.applyMoveBoard s move = .ok nb := by
    unfold GameState.applyMoveBoard
    dsimp only
    by_cases hc : move.isCastling = true
    · rw [if_pos hc]
      exact ⟨_, rfl⟩
    · rw [if_neg hc]
      by_cases he : move.isEnPassant = true
      · rw [if_pos he]
        exact ⟨_, rfl⟩
      · rw [if_neg he]
        by_cases hprm : move.isPromotion = true
        · rw [if_pos hprm]
          have htag : move.specialMove = SpecialMoveType.pawnPromotion := by
            simpa [Move.isPromotion] using hprm
          exact applyPromotion_ok s.board.clone move (hp htag)
        · rw [if_neg hprm]
          exact ⟨_, rfl⟩
  obtain ⟨nb, hnb⟩ := hboard
  rw [hnb]
  exact ⟨_, rfl⟩

/-- C3 (amended): `makeMove` never throws unless the requested promotion type
is pawn or king: for every state and input whose promotion type (when present)
is a genuine promotion piece, the call returns a structured `MoveResult` —
every rule violation comes back as `success = false`, never as an exception. -/
theorem makeMove_no_throw_for_valid_promotion_type (s : GameState) (fromPos toPos : Pos)
    (pt : Option PieceType)
    (hpt : ∀ t, pt = some t → t ≠ PieceType.pawn ∧ t ≠ PieceType.king) :
    isOkB (GameState.makeMove s fromPos toPos pt) = true := by
  unfold GameState.makeMove
  cases hgp : s.board.getPiece fromPos with
  | none => rfl
  | some piece =>
    dsimp only
    split
    · rfl
    · rename_i hcol
      cases hfind : (s.getLegalMovesForPiece piece).find?
          (fun m => PositionUtils.equals m.toSq toPos) with
      | none => rfl
      | some foundMove =>
        dsimp only
        split
        · rename_i e he
          exfalso
          split at he
          · cases pt <;> dsimp only at he <;> cases he
          · cases he
        · rfl
        · rename_i move hmv
          split at hmv
          · rename_i hneed
            cases pt with
            | none =>
              dsimp only at hmv
              rw [Except.ok.injEq] at hmv
              cases hmv
            | some t =>
              dsimp only at hmv
              rw [Except.ok.injEq, Option.some.injEq] at hmv
              have hpiece : piece.type = PieceType.pawn := by
                rw [Bool.and_eq_true] at hneed
                exact beq_iff_eq.mp hneed.1
              obtain ⟨ns, hns⟩ := applyMove_ok s move
                (by
                  intro _ t' ht'
                  rw [← hmv] at ht'
                  dsimp only at ht'
                  rw [Option.some.injEq] at ht'
                  subst ht'
                  refine ⟨?_, (hpt t rfl).1, (hpt t rfl).2⟩
                  rw [← hmv]
                  exact hpiece)
              rw [hns]
              rfl
          · rename_i hneed
            rw [Except.ok.injEq, Option.some.injEq] at hmv
            subst hmv
            have hmem : foundMove ∈ s.getLegalMovesForPiece piece :=
              List.mem_of_find?_eq_some hfind
            unfold GameState.getLegalMovesForPiece at hmem
            rw [if_neg (by simpa using hcol)] at hmem
            have htag := getLegalMoves_not_promotion hmem
            obtain ⟨ns, hns⟩ := applyMove_ok s foundMove (fun hPr => absurd hPr htag)
            rw [hns]
            rfl

/-- Witness for C3's no-throw theorem: promoting to a queen on `promoBoard`
goes through without an exception. -/
theorem makeMove_no_throw_witness :
    isOkB (GameState.makeMove (GameState.createCustom promoBoard Color.white)
      ⟨4, 6⟩ ⟨4, 7⟩ (some PieceType.queen)) = true :=
  makeMove_no_throw_for_valid_promotion_type
    (GameState.createCustom promoBoard Color.white) ⟨4, 6⟩ ⟨4, 7⟩ (some PieceType.queen)
    (by
      intro t ht
      rw [Option.some.injEq] at ht
      subst ht
      exact ⟨by decide, by decide⟩)

/-!  End-condition priority (C6).  -/

/-- A state whose result/endReason pair is exactly the value of `checkGameEnd`
on its own new board and side to move satisfies the priority-order
description. -/
theorem endConditionPriority_of_checkGameEnd (mover : Color) (ns : GameState)
    (hct : ns.currentTurn = ColorUtils.opposite mover)
    (hre : (ns.result, ns.endReason) =
      GameState.checkGameEnd ns.board ns.currentTurn ns.enPassantTarget
        ns.halfMoveClock ns.moveHistory) :
    endConditionPriority mover ns := by
  unfold GameState.checkGameEnd at hre
  unfold endConditionPriority
  split
  · rename_i hcm
    rw [if_pos hcm, Prod.mk.injEq] at hre
    obtain ⟨h1, h2⟩ := hre
    refine ⟨?_, h2⟩
    rw [h1, hct]
    cases mover <;> rfl
  · rename_i hcm
    rw [if_neg hcm] at hre
    split
    · rename_i hsm
      rw [if_pos hsm, Prod.mk.injEq] at hre
      exact hre
    · rename_i hsm
      rw [if_neg hsm] at hre
      split
      · rename_i him
        rw [if_pos him, Prod.mk.injEq] at hre
        exact hre
      · rename_i him
        rw [if_neg him] at hre
        split
        · rename_i hfm
          rw [if_pos hfm, Prod.mk.injEq] at hre
          exact hre
        · rename_i hfm
          rw [if_neg hfm, Prod.mk.injEq] at hre
          exact hre

/-- Any state produced by a successful `applyMove` flips the turn and carries
the result/endReason dictated by the priority-ordered end-condition chain. -/
theorem applyMove_characterization (s : GameState) (move : Move) (ns : GameState)
    (h : GameState.applyMove s move = .ok ns) :
    ns.currentTurn = ColorUtils.opposite s.currentTurn ∧
      endConditionPriority s.currentTurn ns := by
  unfold GameState.applyMove at h
  cases hB : GameState.applyMoveBoard s move with
  | error e =>
    rw [hB] at h
    cases h
  | ok nb =>
    rw [hB] at h
    dsimp only at h
    rw [Except.ok.injEq] at h
    subst h
    exact ⟨rfl, endConditionPriority_of_checkGameEnd s.currentTurn _ rfl rfl⟩

/-- C6: after every successful `makeMove`, end-condition detection on the new
board and new side to move runs in the priority order checkmate (win for the
mover), stalemate (draw), insufficient material (draw), half-move clock ≥ 100
(fifty-move draw), first match winning; otherwise the game is in progress. -/
theorem checkGameEnd_priority_after_makeMove (s : GameState) (fromPos toPos : Pos)
    (pt : Option PieceType) (r : MoveResult) (ns : GameState)
    (h : GameState.makeMove s fromPos toPos pt = .ok r)
    (hs : r.success = true) (hns : r.newState = some ns) :
    ns.currentTurn = ColorUtils.opposite s.currentTurn ∧
      endConditionPriority s.currentTurn ns := by
  unfold GameState.makeMove at h
  cases hgp : s.board.getPiece fromPos with
  | none =>
    rw [hgp] at h
    dsimp only at h
    rw [Except.ok.injEq] at h
    subst h
    exact absurd hs (by decide)
  | some piece =>
    rw [hgp] at h
    dsimp only at h
    split at h
    · rw [Except.ok.injEq] at h
      subst h
      exact absurd hs (by decide)
    · cases hfind : (s.getLegalMovesForPiece piece).find?
          (fun m => PositionUtils.equals m.toSq toPos) with
      | none =>
        rw [hfind] at h
        dsimp only at h
        rw [Except.ok.injEq] at h
        subst h
        exact absurd hs (by decide)
      | some foundMove =>
        rw [hfind] at h
        dsimp only at h
        split at h
        · cases h
        · rw [Except.ok.injEq] at h
          subst h
          exact absurd hs (by decide)
        · rename_i move hmv
          cases happ : s.applyMove move with
          | error e =>
            rw [happ] at h
            cases h
          | ok ns2 =>
            rw [happ] at h
            dsimp only at h
            rw [Except.ok.injEq] at h
            subst h
            dsimp only at hns
            rw [Option.some.injEq] at hns
            subst hns
            exact applyMove_characterization s move ns2 happ

/-- Witness for C6 at the concrete b2–b3 move from `c6Start` (which ends in an
insufficient-material draw on the new board). -/
theorem checkGameEnd_priority_witness :
    c6NewState.currentTurn = ColorUtils.opposite Color.white ∧
      endConditionPriority Color.white c6NewState :=
  checkGameEnd_priority_after_makeMove c6Start ⟨1, 1⟩ ⟨1, 2⟩ Option.none c6Result c6NewState
    rfl rfl rfl

end Chess
